import Mathlib

/-!
# Disperse: the host shell `Source/PluginProcessor.cpp`

A shallow embedding of `DisperseAudioProcessor`, the JUCE plugin shell around the
dispersive delay engine.  The engine class itself (the member `effect`) is a
collaborator whose code is not part of `PluginProcessor.cpp`; it is embedded as an
abstract interface (`Effect`) over an arbitrary engine state `σ`, and the shell is
verified for every implementation of that interface.

Conventions of the embedding
* `float` / `double` values that the shell only stores, compares against a range or
  forwards (parameter values, the sample rate) are rationals; audio samples are an
  arbitrary type `α` with a zero (the shell only moves them around).
* `int` parameter values and parameter indices are `Int`; channel and sample counts
  are `Nat`.
* An access to a buffer outside its channels or samples (a failed `jassert` and an
  out-of-bounds read or write in JUCE) is the result `none`.
* The preprocessor constants that come from headers outside this file
  (`MAX_DELAY_TIME`, `MAX_TIME_SPREAD`, `JucePlugin_IsMidiEffect`,
  `JucePlugin_IsSynth`) are the fields of `Config`.  The embedding follows the
  branches compiled when `JucePlugin_PreferredChannelConfigurations` is not defined.
* The engine method spelled `initialize` in the source is spelled `initialise` here,
  because the former is a reserved word of Lean.
-/

namespace Disperse

/-! ## Data model -/

/-- A stereo sample pair, the `stereofloat` of the source: `input.L`, `input.R`. -/
structure stereofloat (α : Type) where
  L : α
  R : α
deriving DecidableEq, Repr

/-- The `juce::AudioBuffer<float>`: `size` samples in each of the `channels`. -/
structure AudioBuffer (α : Type) where
  size : Nat
  channels : List (List α)
deriving DecidableEq, Repr

/-- The call `buffer.getNumSamples()`. -/
def AudioBuffer.getNumSamples {α : Type} (b : AudioBuffer α) : Nat := b.size

/-- The call `buffer.getNumChannels()`. -/
def AudioBuffer.getNumChannels {α : Type} (b : AudioBuffer α) : Nat := b.channels.length

/-- The call `buffer.getSample (channel, index)`; `none` when the channel or the sample
index lies outside the buffer. -/
def AudioBuffer.getSample {α : Type} (b : AudioBuffer α) (channel index : Nat) : Option α :=
  match b.channels[channel]? with
  | some ch => if index < b.size then ch[index]? else none
  | none => none

/-- The call `buffer.setSample (channel, index, value)`; `none` when the channel or the
sample index lies outside the buffer. -/
def AudioBuffer.setSample {α : Type} (b : AudioBuffer α) (channel index : Nat) (value : α) :
    Option (AudioBuffer α) :=
  match b.channels[channel]? with
  | some ch =>
    if index < b.size ∧ index < ch.length then
      some { b with channels := b.channels.set channel (ch.set index value) }
    else none
  | none => none

/-- The call `buffer.clear (channel, startSample, numSamples)`: zeroes a region of one
channel; `none` when the channel or the region lies outside the buffer. -/
def AudioBuffer.clear {α : Type} [Zero α] (b : AudioBuffer α)
    (channel startSample numSamples : Nat) : Option (AudioBuffer α) :=
  match b.channels[channel]? with
  | some ch =>
    if startSample + numSamples ≤ b.size then
      let cleared := ch.take startSample ++ List.replicate numSamples 0
        ++ ch.drop (startSample + numSamples)
      some { b with channels := b.channels.set channel cleared }
    else none
  | none => none

/-- The constructor `juce::AudioBuffer<float> (numChannels, numSamples)`.  JUCE leaves the
contents unspecified; they are zeros here (the shell never reads them). -/
def AudioBuffer.allocate {α : Type} [Zero α] (numChannels numSamples : Nat) : AudioBuffer α :=
  { size := numSamples, channels := List.replicate numChannels (List.replicate numSamples 0) }

/-- A `juce::AudioParameterFloat` as the shell uses it: the index `addParameter` gave it,
its name, its range, its default and its current value (`get()`). -/
structure AudioParameterFloat where
  parameterIndex : Int
  name : String
  minValue : ℚ
  maxValue : ℚ
  defaultValue : ℚ
  value : ℚ
deriving DecidableEq, Repr

/-- A `juce::AudioParameterInt` as the shell uses it. -/
structure AudioParameterInt where
  parameterIndex : Int
  name : String
  minValue : Int
  maxValue : Int
  defaultValue : Int
  value : Int
deriving DecidableEq, Repr

/-- The call `parameter->get()` on a float parameter: the current value. -/
def AudioParameterFloat.get (p : AudioParameterFloat) : ℚ := p.value

/-- The call `parameter->get()` on an integer parameter: the current value. -/
def AudioParameterInt.get (p : AudioParameterInt) : Int := p.value

/-- The call `parameter->getParameterIndex()` on a float parameter. -/
def AudioParameterFloat.getParameterIndex (p : AudioParameterFloat) : Int := p.parameterIndex

/-- The call `parameter->getParameterIndex()` on an integer parameter. -/
def AudioParameterInt.getParameterIndex (p : AudioParameterInt) : Int := p.parameterIndex

/-- An entry of `getParameters()`: a pointer to one of the registered parameters. -/
inductive AudioProcessorParameter where
  | float (p : AudioParameterFloat)
  | int (p : AudioParameterInt)
deriving DecidableEq, Repr

/-- The call `parameter->getParameterIndex()` on an entry of `getParameters()`. -/
def AudioProcessorParameter.getParameterIndex : AudioProcessorParameter → Int
  | .float p => p.parameterIndex
  | .int p => p.parameterIndex

/-- The call `parameter->getValue()`: the current value mapped linearly onto `[0, 1]` over
the parameter's range.  The shell passes it on as `val` and never reads it. -/
def AudioProcessorParameter.getValue : AudioProcessorParameter → ℚ
  | .float p => max 0 (min 1 ((p.value - p.minValue) / (p.maxValue - p.minValue)))
  | .int p =>
    max 0 (min 1 (((p.value : ℚ) - (p.minValue : ℚ)) / ((p.maxValue : ℚ) - (p.minValue : ℚ))))

/-- The constants this file takes from headers that are not part of it. -/
structure Config where
  MAX_DELAY_TIME : ℚ
  MAX_TIME_SPREAD : ℚ
  JucePlugin_IsMidiEffect : Bool
  JucePlugin_IsSynth : Bool
deriving DecidableEq, Repr

/-- The `juce::AudioChannelSet` values the shell compares: `mono ()`, `stereo ()`, the
disabled set, and any other set, kept by its number of channels. -/
inductive AudioChannelSet where
  | disabled
  | mono
  | stereo
  | other (numChannels : Nat)
deriving DecidableEq, Repr

/-- The call `set.size()`: the number of channels of a channel set. -/
def AudioChannelSet.size : AudioChannelSet → Nat
  | .disabled => 0
  | .mono => 1
  | .stereo => 2
  | .other n => n

/-- The `BusesLayout` of the main input bus and the main output bus. -/
structure BusesLayout where
  mainInput : AudioChannelSet
  mainOutput : AudioChannelSet
deriving DecidableEq, Repr

/-- The call `layouts.getMainInputChannelSet()`. -/
def BusesLayout.getMainInputChannelSet (l : BusesLayout) : AudioChannelSet := l.mainInput

/-- The call `layouts.getMainOutputChannelSet()`. -/
def BusesLayout.getMainOutputChannelSet (l : BusesLayout) : AudioChannelSet := l.mainOutput

/-- The interface of the engine member `effect`, over an engine state `σ`: every method
the shell calls, as a function of the engine state. -/
structure Effect (σ α : Type) where
  initialise : σ → ℚ → Int → σ
  process : σ → stereofloat α → stereofloat α × σ
  setTimeMs : σ → ℚ → σ
  setMix : σ → ℚ → σ
  setFeedback : σ → ℚ → σ
  setSpread : σ → ℚ → σ
  setDispersion : σ → ℚ → σ
  setVoiceArrangement : σ → List Int → σ
  setRandomSeed : σ → Int → σ

/-- The members of `DisperseAudioProcessor` that this file reads or writes, with the two
channel counts the `juce::AudioProcessor` base keeps for the current bus layout. -/
structure DisperseAudioProcessor (σ α : Type) where
  mix : AudioParameterFloat
  time : AudioParameterFloat
  feedback : AudioParameterFloat
  spread : AudioParameterFloat
  dispersion : AudioParameterFloat
  numVoices : AudioParameterInt
  seed : AudioParameterInt
  sampleRate : ℚ
  inputBuffer : AudioBuffer α
  effect : σ
  totalNumInputChannels : Nat
  totalNumOutputChannels : Nat

/-! ## The methods of `DisperseAudioProcessor` -/

/-- The constructor `DisperseAudioProcessor::DisperseAudioProcessor ()`.  `addParameter`
numbers the parameters in the order of the calls, from 0; every parameter starts at its
default.  The buses are a stereo input (absent for a MIDI effect or a synth) and a stereo
output (absent for a MIDI effect).  `effect0` is the default-constructed engine; the
member `sampleRate` has no value before `prepareToPlay` and is 0 here. -/
def DisperseAudioProcessor.ctor {σ α : Type} (cfg : Config) (effect0 : σ) :
    DisperseAudioProcessor σ α :=
  { mix := ⟨0, "Mix", 0, 1, 3 / 10, 3 / 10⟩
    time := ⟨1, "Delay Time (ms)", 50, cfg.MAX_DELAY_TIME - cfg.MAX_TIME_SPREAD, 600, 600⟩
    feedback := ⟨2, "Feedback (%)", 0, 1, 1 / 2, 1 / 2⟩
    spread := ⟨3, "Stereo Spread", 0, 1, 1 / 5, 1 / 5⟩
    dispersion := ⟨4, "Dispersion", 0, 1, 1 / 5, 1 / 5⟩
    numVoices := ⟨5, "Number of Delay Voices", 0, 8, 4, 4⟩
    seed := ⟨6, "Random Seed", 1, 100000, 1234, 1234⟩
    sampleRate := 0
    inputBuffer := ⟨0, []⟩
    effect := effect0
    totalNumInputChannels :=
      if cfg.JucePlugin_IsMidiEffect || cfg.JucePlugin_IsSynth then 0 else 2
    totalNumOutputChannels := if cfg.JucePlugin_IsMidiEffect then 0 else 2 }

/-- The call `getParameters()`: the registered parameters in the order of registration. -/
def DisperseAudioProcessor.getParameters {σ α : Type} (p : DisperseAudioProcessor σ α) :
    List AudioProcessorParameter :=
  [.float p.mix, .float p.time, .float p.feedback, .float p.spread, .float p.dispersion,
   .int p.numVoices, .int p.seed]

/-- The listener callback `parameterValueChanged (parameterIndex, val)`.  The sixth and
seventh tests of the source are `this->numVoices->getParameterIndex()` and
`this->seed->getParameterIndex()` taken as conditions, true when the index is not 0.
`std::vector<int> (n, 1)` is `n` ones (`n` is a parameter value, never negative). -/
def DisperseAudioProcessor.parameterValueChanged {σ α : Type} (E : Effect σ α)
    (p : DisperseAudioProcessor σ α) (parameterIndex : Int) (_val : ℚ) :
    DisperseAudioProcessor σ α :=
  if parameterIndex = p.time.getParameterIndex then
    { p with effect := E.setTimeMs p.effect p.time.get }
  else if parameterIndex = p.mix.getParameterIndex then
    { p with effect := E.setMix p.effect p.mix.get }
  else if parameterIndex = p.feedback.getParameterIndex then
    { p with effect := E.setFeedback p.effect p.feedback.get }
  else if parameterIndex = p.spread.getParameterIndex then
    { p with effect := E.setSpread p.effect p.spread.get }
  else if parameterIndex = p.dispersion.getParameterIndex then
    { p with effect := E.setDispersion p.effect p.dispersion.get }
  else if p.numVoices.getParameterIndex ≠ 0 then
    { p with effect := E.setVoiceArrangement p.effect (List.replicate p.numVoices.get.toNat 1) }
  else if p.seed.getParameterIndex ≠ 0 then
    { p with effect := E.setRandomSeed p.effect p.seed.get }
  else p

/-- The method `prepareToPlay (sampleRate, samplesPerBlock)`: stores the sample rate,
allocates the two-channel input buffer, initialises the engine with the literal seed 1234
and then reports every registered parameter to `parameterValueChanged`.  (The unit-test
run and the console output of the source do not touch the processor.) -/
def DisperseAudioProcessor.prepareToPlay {σ α : Type} [Zero α] (E : Effect σ α)
    (p : DisperseAudioProcessor σ α) (sampleRate : ℚ) (samplesPerBlock : Nat) :
    DisperseAudioProcessor σ α :=
  let p1 : DisperseAudioProcessor σ α :=
    { p with sampleRate := sampleRate, inputBuffer := AudioBuffer.allocate 2 samplesPerBlock }
  let p2 : DisperseAudioProcessor σ α :=
    { p1 with effect := E.initialise p1.effect sampleRate 1234 }
  p2.getParameters.foldl
    (fun q parameter => q.parameterValueChanged E parameter.getParameterIndex parameter.getValue)
    p2

/-- The method `releaseResources ()`: empty in the source. -/
def DisperseAudioProcessor.releaseResources {σ α : Type} (p : DisperseAudioProcessor σ α) :
    DisperseAudioProcessor σ α := p

/-- The method `isBusesLayoutSupported (layouts)`. -/
def isBusesLayoutSupported (cfg : Config) (layouts : BusesLayout) : Bool :=
  if cfg.JucePlugin_IsMidiEffect then true
  else if layouts.getMainOutputChannelSet ≠ AudioChannelSet.mono
      ∧ layouts.getMainOutputChannelSet ≠ AudioChannelSet.stereo then false
  else if !cfg.JucePlugin_IsSynth
      ∧ layouts.getMainOutputChannelSet ≠ layouts.getMainInputChannelSet then false
  else true

/-- The first loop of `processBlock`: `for (i = totalNumInputChannels;
i < totalNumOutputChannels; ++i) buffer.clear (i, 0, buffer.getNumSamples ())`, with
`count` iterations left and the loop variable at `i`. -/
def clearOutputs {α : Type} [Zero α] : Nat → Nat → AudioBuffer α → Option (AudioBuffer α)
  | 0, _, b => some b
  | count + 1, i, b =>
    match b.clear i 0 b.getNumSamples with
    | some b1 => clearOutputs count (i + 1) b1
    | none => none

/-- The sample loop of `processBlock`: `for (i = 0; i < buffer.getNumSamples (); i++)`,
with `count` iterations left and the loop variable at `i`.  An iteration reads channels 0
and 1 at `i`, calls `effect.process` and writes the result back to channels 0 and 1. -/
def processSamples {σ α : Type} (E : Effect σ α) :
    Nat → Nat → σ → AudioBuffer α → Option (σ × AudioBuffer α)
  | 0, _, s, b => some (s, b)
  | count + 1, i, s, b =>
    match b.getSample 0 i with
    | none => none
    | some l =>
      match b.getSample 1 i with
      | none => none
      | some r =>
        let output := E.process s { L := l, R := r }
        match b.setSample 0 i output.1.L with
        | none => none
        | some b1 =>
          match b1.setSample 1 i output.1.R with
          | none => none
          | some b2 => processSamples E count (i + 1) output.2 b2

/-- The method `processBlock (buffer, midiMessages)`: copies the buffer into
`inputBuffer`, clears the output channels that have no input, and runs the sample loop.
Returns the processor and the buffer afterwards. -/
def DisperseAudioProcessor.processBlock {σ α : Type} [Zero α] (E : Effect σ α)
    (p : DisperseAudioProcessor σ α) (buffer : AudioBuffer α) :
    Option (DisperseAudioProcessor σ α × AudioBuffer α) :=
  let p1 : DisperseAudioProcessor σ α := { p with inputBuffer := buffer }
  match clearOutputs (p.totalNumOutputChannels - p.totalNumInputChannels)
      p.totalNumInputChannels buffer with
  | none => none
  | some b1 =>
    match processSamples E b1.getNumSamples 0 p1.effect b1 with
    | none => none
    | some (s, b2) => some ({ p1 with effect := s }, b2)

/-- The method `getStateInformation (destData)`: the body holds only comments, so the
memory block is returned as it came. -/
def DisperseAudioProcessor.getStateInformation {σ α : Type} (_p : DisperseAudioProcessor σ α)
    (destData : List Nat) : List Nat := destData

/-- The method `setStateInformation (data, sizeInBytes)`: the body holds only comments,
so the processor is returned as it came. -/
def DisperseAudioProcessor.setStateInformation {σ α : Type} (p : DisperseAudioProcessor σ α)
    (_data : List Nat) (_sizeInBytes : Int) : DisperseAudioProcessor σ α := p

/-- The method `parameterGestureChanged (parameterIndex, gestureIsStarting)`: empty. -/
def DisperseAudioProcessor.parameterGestureChanged {σ α : Type}
    (p : DisperseAudioProcessor σ α) (_parameterIndex : Int) (_gestureIsStarting : Bool) :
    DisperseAudioProcessor σ α := p

/-- The method `setBusesLayout (layouts)` of the `juce::AudioProcessor` base, as far as
this file depends on it: a layout that `isBusesLayoutSupported` accepts becomes the
current one and fixes the two channel counts; any other layout is refused. -/
def DisperseAudioProcessor.setBusesLayout {σ α : Type} (cfg : Config)
    (p : DisperseAudioProcessor σ α) (layouts : BusesLayout) : DisperseAudioProcessor σ α :=
  if isBusesLayoutSupported cfg layouts then
    { p with totalNumInputChannels := layouts.getMainInputChannelSet.size
             totalNumOutputChannels := layouts.getMainOutputChannelSet.size }
  else p

/-! ## Observing the calls

The claims about which engine method is called, with what, and in which order are
stated on an engine that keeps a chronological list of the calls it receives next to
its own state. -/

/-- A call received by the engine, with its arguments. -/
inductive EngineCall (α : Type) where
  | initialise (sampleRate : ℚ) (seed : Int)
  | process (input : stereofloat α)
  | setTimeMs (value : ℚ)
  | setMix (value : ℚ)
  | setFeedback (value : ℚ)
  | setSpread (value : ℚ)
  | setDispersion (value : ℚ)
  | setVoiceArrangement (arrangement : List Int)
  | setRandomSeed (seed : Int)
deriving DecidableEq, Repr

/-- A call the host (or the editor, through a parameter) makes on the processor.
`storeValues` stands for the host or the editor writing new current values into the seven
parameter objects. -/
inductive HostCall (α : Type) where
  | setBusesLayout (layouts : BusesLayout)
  | prepareToPlay (sampleRate : ℚ) (samplesPerBlock : Nat)
  | releaseResources
  | processBlock (buffer : AudioBuffer α)
  | getStateInformation (destData : List Nat)
  | setStateInformation (data : List Nat) (sizeInBytes : Int)
  | storeValues (mix time feedback spread dispersion : ℚ) (numVoices seed : Int)
  | parameterValueChanged (parameterIndex : Int) (val : ℚ)
  | parameterGestureChanged (parameterIndex : Int) (gestureIsStarting : Bool)
deriving DecidableEq, Repr

/-- An entry of the chronological record: the start of a host call, or a call received
by the engine. -/
inductive Event (α : Type) where
  | host (call : HostCall α)
  | engine (call : EngineCall α)
deriving DecidableEq, Repr

/-- The engine `E` with a record: every method does what `E` does on the first
component and appends the call to the second. -/
def Effect.recorded {σ α : Type} (E : Effect σ α) : Effect (σ × List (Event α)) α where
  initialise s sampleRate seed :=
    (E.initialise s.1 sampleRate seed, s.2 ++ [Event.engine (.initialise sampleRate seed)])
  process s input :=
    ((E.process s.1 input).1, ((E.process s.1 input).2, s.2 ++ [Event.engine (.process input)]))
  setTimeMs s v := (E.setTimeMs s.1 v, s.2 ++ [Event.engine (.setTimeMs v)])
  setMix s v := (E.setMix s.1 v, s.2 ++ [Event.engine (.setMix v)])
  setFeedback s v := (E.setFeedback s.1 v, s.2 ++ [Event.engine (.setFeedback v)])
  setSpread s v := (E.setSpread s.1 v, s.2 ++ [Event.engine (.setSpread v)])
  setDispersion s v := (E.setDispersion s.1 v, s.2 ++ [Event.engine (.setDispersion v)])
  setVoiceArrangement s a :=
    (E.setVoiceArrangement s.1 a, s.2 ++ [Event.engine (.setVoiceArrangement a)])
  setRandomSeed s n := (E.setRandomSeed s.1 n, s.2 ++ [Event.engine (.setRandomSeed n)])

/-- A processor whose engine keeps a record. -/
abbrev Recorded (σ α : Type) : Type := DisperseAudioProcessor (σ × List (Event α)) α

/-- The record of a processor: every host call and engine call so far, oldest first. -/
def DisperseAudioProcessor.record {σ α : Type} (p : Recorded σ α) : List (Event α) :=
  p.effect.2

/-- One host call on a recording processor: the call is noted in the record, then the
method runs.  `none` when the method accesses a buffer outside its bounds. -/
def hostStep {σ α : Type} [Zero α] (cfg : Config) (E : Effect σ α) (p : Recorded σ α)
    (call : HostCall α) : Option (Recorded σ α) :=
  let p0 : Recorded σ α := { p with effect := (p.effect.1, p.effect.2 ++ [Event.host call]) }
  match call with
  | .setBusesLayout layouts => some (p0.setBusesLayout cfg layouts)
  | .prepareToPlay sampleRate samplesPerBlock =>
    some (p0.prepareToPlay E.recorded sampleRate samplesPerBlock)
  | .releaseResources => some p0.releaseResources
  | .processBlock buffer => (p0.processBlock E.recorded buffer).map Prod.fst
  | .getStateInformation _ => some p0
  | .setStateInformation data sizeInBytes => some (p0.setStateInformation data sizeInBytes)
  | .storeValues mix time feedback spread dispersion numVoices seed =>
    some { p0 with mix := { p0.mix with value := mix }
                   time := { p0.time with value := time }
                   feedback := { p0.feedback with value := feedback }
                   spread := { p0.spread with value := spread }
                   dispersion := { p0.dispersion with value := dispersion }
                   numVoices := { p0.numVoices with value := numVoices }
                   seed := { p0.seed with value := seed } }
  | .parameterValueChanged parameterIndex val =>
    some (p0.parameterValueChanged E.recorded parameterIndex val)
  | .parameterGestureChanged parameterIndex gestureIsStarting =>
    some (p0.parameterGestureChanged parameterIndex gestureIsStarting)

/-- A sequence of host calls, one after the other. -/
def hostRun {σ α : Type} [Zero α] (cfg : Config) (E : Effect σ α) :
    Recorded σ α → List (HostCall α) → Option (Recorded σ α)
  | p, [] => some p
  | p, call :: calls =>
    match hostStep cfg E p call with
    | some p1 => hostRun cfg E p1 calls
    | none => none

/-- The spec's reading of the sample loop: a left fold of `effect.process` over the
sample pairs that threads the engine state and collects the returned pairs. -/
def foldProcess {σ α : Type} (E : Effect σ α) (s : σ) (inputs : List (stereofloat α)) :
    List (stereofloat α) × σ :=
  inputs.foldl (fun acc input => (acc.1 ++ [(E.process acc.2 input).1], (E.process acc.2 input).2))
    ([], s)

/-- The sample pairs of a stereo buffer: sample `i` of the left channel with sample `i`
of the right channel. -/
def samplePairs {α : Type} (left right : List α) : List (stereofloat α) :=
  List.zipWith stereofloat.mk left right

/-- The parameter indices are the ones the constructor's `addParameter` calls assign. -/
def DisperseAudioProcessor.Registered {σ α : Type} (p : DisperseAudioProcessor σ α) : Prop :=
  p.mix.parameterIndex = 0 ∧ p.time.parameterIndex = 1 ∧ p.feedback.parameterIndex = 2 ∧
  p.spread.parameterIndex = 3 ∧ p.dispersion.parameterIndex = 4 ∧
  p.numVoices.parameterIndex = 5 ∧ p.seed.parameterIndex = 6

/-- The sample rate of the most recent `prepareToPlay` noted in a record, if any. -/
def lastPrepareRate {α : Type} (evs : List (Event α)) : Option ℚ :=
  evs.foldl (fun acc e =>
    match e with
    | .host (.prepareToPlay sampleRate _) => some sampleRate
    | _ => acc) none

/-- The sample rate of the most recent `effect.initialize` call noted in a record, if
any. -/
def lastInitialiseRate {α : Type} (evs : List (Event α)) : Option ℚ :=
  evs.foldl (fun acc e =>
    match e with
    | .engine (.initialise sampleRate _) => some sampleRate
    | _ => acc) none

/-- The most recent host call noted in a record, if any: the call in progress. -/
def lastHostCall {α : Type} (evs : List (Event α)) : Option (HostCall α) :=
  evs.foldl (fun acc e =>
    match e with
    | .host call => some call
    | _ => acc) none

/-- Whether an engine call is `effect.initialize`. -/
def EngineCall.isInitialise {α : Type} : EngineCall α → Bool
  | .initialise _ _ => true
  | _ => false

/-- The order required of a record: wherever an engine call stands, if it is
`effect.initialize (r, _)` the host call in progress is a `prepareToPlay` with sample
rate `r`, and if it is any other engine call then a `prepareToPlay` came earlier and the
most recent `effect.initialize` before the call has the sample rate of the most recent
`prepareToPlay` before the call. -/
def EngineOrdered {α : Type} (evs : List (Event α)) : Prop :=
  ∀ (before : List (Event α)) (call : EngineCall α) (after : List (Event α)),
    evs = before ++ Event.engine call :: after →
      (∀ r s, call = .initialise r s →
          ∃ n, lastHostCall before = some (HostCall.prepareToPlay r n)) ∧
      (call.isInitialise = false →
          ∃ r, lastPrepareRate before = some r ∧ lastInitialiseRate before = some r)

/-- The record ends in a state where the engine was last initialised with the sample
rate of the most recent `prepareToPlay`. -/
def RatesAgree {α : Type} (evs : List (Event α)) : Prop :=
  ∃ r, lastPrepareRate evs = some r ∧ lastInitialiseRate evs = some r

/-- A sample configuration: a maximum delay of 3000 ms, a maximum spread of 500 ms, an
audio effect (neither a MIDI effect nor a synth). -/
def sampleConfig : Config :=
  { MAX_DELAY_TIME := 3000, MAX_TIME_SPREAD := 500,
    JucePlugin_IsMidiEffect := false, JucePlugin_IsSynth := false }

/-- A sample engine over integer samples: its state counts the calls it received, and
`process` swaps the two channels and adds the count to each. -/
def sampleEffect : Effect Nat Int where
  initialise s _ _ := s + 1
  process s input := ({ L := input.R + s, R := input.L + s }, s + 1)
  setTimeMs s _ := s + 1
  setMix s _ := s + 1
  setFeedback s _ := s + 1
  setSpread s _ := s + 1
  setDispersion s _ := s + 1
  setVoiceArrangement s _ := s + 1
  setRandomSeed s _ := s + 1

/-- A freshly constructed recording processor for the sample configuration and engine. -/
def sampleProcessor : Recorded Nat Int := DisperseAudioProcessor.ctor sampleConfig (0, [])

/-! ## The sample loop -/

/-- The fold of `foldProcess`, started from outputs already collected. -/
theorem foldProcess_foldl_acc {σ α : Type} (E : Effect σ α) (inputs : List (stereofloat α))
    (done : List (stereofloat α)) (s : σ) :
    inputs.foldl
        (fun acc input => (acc.1 ++ [(E.process acc.2 input).1], (E.process acc.2 input).2))
        (done, s)
      = (done ++ (foldProcess E s inputs).1, (foldProcess E s inputs).2) := by
  induction inputs generalizing done s with
  | nil => simp [foldProcess]
  | cons x xs ih =>
    simp only [foldProcess, List.foldl_cons, List.nil_append]
    rw [ih, ih [(E.process s x).1]]
    simp [foldProcess]

/-- Unfolding `foldProcess` at the first sample pair. -/
theorem foldProcess_cons {σ α : Type} (E : Effect σ α) (s : σ) (x : stereofloat α)
    (xs : List (stereofloat α)) :
    foldProcess E s (x :: xs)
      = ((E.process s x).1 :: (foldProcess E (E.process s x).2 xs).1,
         (foldProcess E (E.process s x).2 xs).2) := by
  unfold foldProcess
  simp only [List.foldl_cons, List.nil_append]
  rw [foldProcess_foldl_acc]
  simp [foldProcess]

/-- The empty fold. -/
theorem foldProcess_nil {σ α : Type} (E : Effect σ α) (s : σ) :
    foldProcess E s [] = ([], s) := rfl

/-- Reading channel 0 of a two-channel buffer just after the samples `done`. -/
theorem getSample_zero_append {α : Type} (n : Nat) (done rest right : List α) (a : α)
    (h : done.length < n) :
    AudioBuffer.getSample ⟨n, [done ++ a :: rest, right]⟩ 0 done.length = some a := by
  simp [AudioBuffer.getSample, h, List.getElem_append_right]

/-- Reading channel 1 of a two-channel buffer just after the samples `done`. -/
theorem getSample_one_append {α : Type} (n : Nat) (left done rest : List α) (a : α)
    (h : done.length < n) :
    AudioBuffer.getSample ⟨n, [left, done ++ a :: rest]⟩ 1 done.length = some a := by
  simp [AudioBuffer.getSample, h, List.getElem_append_right]

/-- Writing channel 0 of a two-channel buffer just after the samples `done`. -/
theorem setSample_zero_append {α : Type} (n : Nat) (done rest right : List α) (a v : α)
    (h : done.length < n) :
    AudioBuffer.setSample ⟨n, [done ++ a :: rest, right]⟩ 0 done.length v
      = some ⟨n, [done ++ v :: rest, right]⟩ := by
  simp [AudioBuffer.setSample, h]

/-- Writing channel 1 of a two-channel buffer just after the samples `done`. -/
theorem setSample_one_append {α : Type} (n : Nat) (left done rest : List α) (a v : α)
    (h : done.length < n) :
    AudioBuffer.setSample ⟨n, [left, done ++ a :: rest]⟩ 1 done.length v
      = some ⟨n, [left, done ++ v :: rest]⟩ := by
  simp [AudioBuffer.setSample, h]

/-- The sample loop from index `doneL.length` on: the samples before the index are
untouched, the remaining ones are replaced by the outputs of the fold. -/
theorem processSamples_fold {σ α : Type} (E : Effect σ α) (xs : List (stereofloat α)) :
    ∀ (doneL doneR : List α) (s : σ) (n : Nat), doneL.length = doneR.length →
      n = doneL.length + xs.length →
      processSamples E xs.length doneL.length s
          ⟨n, [doneL ++ xs.map stereofloat.L, doneR ++ xs.map stereofloat.R]⟩
        = some ((foldProcess E s xs).2,
            ⟨n, [doneL ++ (foldProcess E s xs).1.map stereofloat.L,
                 doneR ++ (foldProcess E s xs).1.map stereofloat.R]⟩) := by
  induction xs with
  | nil => intro doneL doneR s n _ _; simp [processSamples, foldProcess_nil]
  | cons x xs ih =>
    intro doneL doneR s n hlen hn
    have hlt : doneL.length < n := by simp at hn; omega
    have hltR : doneR.length < n := by omega
    have h := ih (doneL ++ [(E.process s x).1.L]) (doneR ++ [(E.process s x).1.R])
      (E.process s x).2 n (by simp [hlen]) (by simp at hn ⊢; omega)
    simp only [List.length_append, List.length_singleton, List.append_assoc,
      List.singleton_append] at h
    simp only [List.length_cons, processSamples, List.map_cons, foldProcess_cons]
    rw [getSample_zero_append n doneL _ _ x.L hlt, hlen,
      getSample_one_append n _ doneR _ x.R hltR]
    dsimp only
    rw [← hlen, setSample_zero_append n doneL _ _ x.L _ hlt]
    dsimp only
    rw [hlen, setSample_one_append n _ doneR _ x.R _ hltR, ← hlen]
    exact h

/-- The left samples of the paired channels are the left channel. -/
theorem samplePairs_map_L {α : Type} (left right : List α) (h : left.length = right.length) :
    (samplePairs left right).map stereofloat.L = left := by
  induction left generalizing right with
  | nil => simp [samplePairs]
  | cons a as ih =>
    cases right with
    | nil => simp at h
    | cons b bs =>
      have := ih bs (by simpa using h)
      simp [samplePairs] at this ⊢
      exact this

/-- The right samples of the paired channels are the right channel. -/
theorem samplePairs_map_R {α : Type} (left right : List α) (h : left.length = right.length) :
    (samplePairs left right).map stereofloat.R = right := by
  induction left generalizing right with
  | nil => cases right with
    | nil => simp [samplePairs]
    | cons b bs => simp at h
  | cons a as ih =>
    cases right with
    | nil => simp at h
    | cons b bs =>
      have := ih bs (by simpa using h)
      simp [samplePairs] at this ⊢
      exact this

/-- There are as many sample pairs as samples in the left channel. -/
theorem samplePairs_length {α : Type} (left right : List α) (h : left.length = right.length) :
    (samplePairs left right).length = left.length := by
  simp [samplePairs, h]

/-- What `process` does on a recording engine. -/
theorem recorded_process {σ α : Type} (E : Effect σ α) (s : σ × List (Event α))
    (x : stereofloat α) :
    E.recorded.process s x
      = ((E.process s.1 x).1, ((E.process s.1 x).2, s.2 ++ [Event.engine (.process x)])) := rfl

/-- The fold over a recording engine: the fold over the engine, and one recorded
`process` call per input, in order. -/
theorem foldProcess_recorded {σ α : Type} (E : Effect σ α) (xs : List (stereofloat α)) :
    ∀ (s : σ) (log : List (Event α)),
      foldProcess E.recorded (s, log) xs
        = ((foldProcess E s xs).1,
           ((foldProcess E s xs).2, log ++ xs.map (fun x => Event.engine (.process x)))) := by
  induction xs with
  | nil => intro s log; simp [foldProcess_nil]
  | cons x xs ih =>
    intro s log
    rw [foldProcess_cons, foldProcess_cons]
    simp only [recorded_process]
    rw [ih]
    simp

/-- The whole of `processBlock` on a stereo buffer when no output channel lacks an
input, for any engine. -/
theorem processBlock_stereo {σ α : Type} [Zero α] (E : Effect σ α)
    (p : DisperseAudioProcessor σ α) (left right : List α)
    (hlen : left.length = right.length)
    (hch : p.totalNumOutputChannels ≤ p.totalNumInputChannels) :
    p.processBlock E ⟨left.length, [left, right]⟩
      = some ({ p with inputBuffer := ⟨left.length, [left, right]⟩
                       effect := (foldProcess E p.effect (samplePairs left right)).2 },
              ⟨left.length,
                [(foldProcess E p.effect (samplePairs left right)).1.map stereofloat.L,
                 (foldProcess E p.effect (samplePairs left right)).1.map stereofloat.R]⟩) := by
  have h := processSamples_fold E (samplePairs left right) [] [] p.effect left.length rfl
    (by simp [samplePairs_length left right hlen])
  rw [samplePairs_map_L left right hlen, samplePairs_map_R left right hlen,
    samplePairs_length left right hlen] at h
  simp only [List.nil_append, List.length_nil] at h
  simp only [DisperseAudioProcessor.processBlock, Nat.sub_eq_zero_of_le hch, clearOutputs,
    AudioBuffer.getNumSamples, h]

/-! ## The order of engine calls -/

/-- The most recent `prepareToPlay` after one more event. -/
theorem lastPrepareRate_concat {α : Type} (evs : List (Event α)) (e : Event α) :
    lastPrepareRate (evs ++ [e])
      = match e with
        | .host (.prepareToPlay sampleRate _) => some sampleRate
        | _ => lastPrepareRate evs := by
  simp only [lastPrepareRate, List.foldl_append, List.foldl_cons, List.foldl_nil]

/-- The most recent `effect.initialize` after one more event. -/
theorem lastInitialiseRate_concat {α : Type} (evs : List (Event α)) (e : Event α) :
    lastInitialiseRate (evs ++ [e])
      = match e with
        | .engine (.initialise sampleRate _) => some sampleRate
        | _ => lastInitialiseRate evs := by
  simp only [lastInitialiseRate, List.foldl_append, List.foldl_cons, List.foldl_nil]

/-- The host call in progress after one more event. -/
theorem lastHostCall_concat {α : Type} (evs : List (Event α)) (e : Event α) :
    lastHostCall (evs ++ [e])
      = match e with
        | .host call => some call
        | _ => lastHostCall evs := by
  simp only [lastHostCall, List.foldl_append, List.foldl_cons, List.foldl_nil]

/-- The empty record is ordered. -/
theorem engineOrdered_nil {α : Type} : EngineOrdered ([] : List (Event α)) := by
  intro before call after h
  simp at h

/-- Noting a host call keeps a record ordered. -/
theorem engineOrdered_concat_host {α : Type} (evs : List (Event α)) (c : HostCall α)
    (h : EngineOrdered evs) : EngineOrdered (evs ++ [Event.host c]) := by
  intro before call after hsplit
  rcases List.eq_nil_or_concat after with rfl | ⟨after1, y, rfl⟩
  · have := List.append_inj' hsplit rfl
    simp at this
  · rw [List.concat_eq_append, ← List.cons_append, ← List.append_assoc] at hsplit
    have := List.append_inj' hsplit rfl
    exact h before call after1 this.1

/-- An engine call at the end of an ordered record keeps it ordered when the call
itself meets the order. -/
theorem engineOrdered_concat_engine {α : Type} (evs : List (Event α)) (c : EngineCall α)
    (h : EngineOrdered evs)
    (hinit : ∀ r s, c = .initialise r s →
      ∃ n, lastHostCall evs = some (HostCall.prepareToPlay r n))
    (hother : c.isInitialise = false → RatesAgree evs) :
    EngineOrdered (evs ++ [Event.engine c]) := by
  intro before call after hsplit
  rcases List.eq_nil_or_concat after with rfl | ⟨after1, y, rfl⟩
  · have := List.append_inj' hsplit rfl
    obtain ⟨h1, h2⟩ := this
    simp only [List.cons.injEq, Event.engine.injEq, and_true] at h2
    subst h1 h2
    exact ⟨hinit, hother⟩
  · rw [List.concat_eq_append, ← List.cons_append, ← List.append_assoc] at hsplit
    have := List.append_inj' hsplit rfl
    exact h before call after1 this.1

/-- Engine calls other than `effect.initialize` keep the rates in agreement. -/
theorem ratesAgree_concat_engine {α : Type} (evs : List (Event α)) (c : EngineCall α)
    (hc : c.isInitialise = false) (h : RatesAgree evs) :
    RatesAgree (evs ++ [Event.engine c]) := by
  obtain ⟨r, h1, h2⟩ := h
  refine ⟨r, ?_, ?_⟩
  · rw [lastPrepareRate_concat]; exact h1
  · rw [lastInitialiseRate_concat]
    cases c <;> simp_all [EngineCall.isInitialise]

/-- A run of engine calls other than `effect.initialize` keeps an ordered record with
agreeing rates ordered and in agreement. -/
theorem engineOrdered_append_calls {α : Type} (cs : List (EngineCall α)) :
    ∀ (evs : List (Event α)), (∀ c ∈ cs, c.isInitialise = false) →
      EngineOrdered evs → RatesAgree evs →
      EngineOrdered (evs ++ cs.map Event.engine) ∧ RatesAgree (evs ++ cs.map Event.engine) := by
  induction cs with
  | nil => intro evs _ h1 h2; simpa using ⟨h1, h2⟩
  | cons c cs ih =>
    intro evs hcs h1 h2
    have hc : c.isInitialise = false := hcs c (by simp)
    have h3 : EngineOrdered (evs ++ [Event.engine c]) :=
      engineOrdered_concat_engine evs c h1
        (by intro r s hrs; rw [hrs] at hc; simp [EngineCall.isInitialise] at hc)
        (fun _ => h2)
    have h4 := ratesAgree_concat_engine evs c hc h2
    have := ih (evs ++ [Event.engine c]) (fun x hx => hcs x (by simp [hx])) h3 h4
    simpa using this

/-- The block of a host call other than `prepareToPlay`: its mark followed by engine
calls other than `effect.initialize`. -/
theorem engineOrdered_block {α : Type} (evs : List (Event α)) (c : HostCall α)
    (cs : List (EngineCall α)) (hc : ∀ r n, c ≠ .prepareToPlay r n)
    (hcs : ∀ x ∈ cs, x.isInitialise = false) (h1 : EngineOrdered evs) (h2 : RatesAgree evs) :
    EngineOrdered (evs ++ Event.host c :: cs.map Event.engine)
      ∧ RatesAgree (evs ++ Event.host c :: cs.map Event.engine) := by
  have h3 := engineOrdered_concat_host evs c h1
  have h4 : RatesAgree (evs ++ [Event.host c]) := by
    obtain ⟨r, ha, hb⟩ := h2
    refine ⟨r, ?_, ?_⟩
    · rw [lastPrepareRate_concat]
      cases c <;> first | exact ha | exact absurd rfl (hc _ _)
    · rw [lastInitialiseRate_concat]; exact hb
  have := engineOrdered_append_calls cs (evs ++ [Event.host c]) hcs h3 h4
  simpa using this

/-- The block of `prepareToPlay`: its mark, `effect.initialize` with its sample rate,
then engine calls other than `effect.initialize`. -/
theorem engineOrdered_prepare_block {α : Type} (evs : List (Event α)) (r : ℚ) (n : Nat)
    (seed : Int) (cs : List (EngineCall α)) (hcs : ∀ x ∈ cs, x.isInitialise = false)
    (h1 : EngineOrdered evs) :
    EngineOrdered (evs ++ Event.host (.prepareToPlay r n)
        :: Event.engine (.initialise r seed) :: cs.map Event.engine)
      ∧ RatesAgree (evs ++ Event.host (.prepareToPlay r n)
        :: Event.engine (.initialise r seed) :: cs.map Event.engine) := by
  have h3 := engineOrdered_concat_host evs (.prepareToPlay r n) h1
  have h4 : EngineOrdered (evs ++ [Event.host (.prepareToPlay r n)]
      ++ [Event.engine (.initialise r seed)]) := by
    apply engineOrdered_concat_engine _ _ h3
    · intro r1 s1 heq
      simp only [EngineCall.initialise.injEq] at heq
      refine ⟨n, ?_⟩
      rw [lastHostCall_concat, heq.1]
    · intro hfalse
      simp [EngineCall.isInitialise] at hfalse
  have h5 : RatesAgree (evs ++ [Event.host (.prepareToPlay r n)]
      ++ [Event.engine (.initialise r seed)]) := by
    refine ⟨r, ?_, ?_⟩
    · rw [lastPrepareRate_concat]
      simp only []
      rw [lastPrepareRate_concat]
    · rw [lastInitialiseRate_concat]
  have := engineOrdered_append_calls cs _ hcs h4 h5
  simpa using this

/-! ## What each method adds to the record -/

/-- The callback `parameterValueChanged` adds engine calls other than
`effect.initialize` to the record, and nothing else. -/
theorem parameterValueChanged_record {σ α : Type} (E : Effect σ α) (p : Recorded σ α)
    (parameterIndex : Int) (val : ℚ) :
    ∃ cs : List (EngineCall α), (∀ c ∈ cs, c.isInitialise = false) ∧
      (p.parameterValueChanged E.recorded parameterIndex val).record
        = p.record ++ cs.map Event.engine := by
  unfold DisperseAudioProcessor.parameterValueChanged
  split_ifs
  · exact ⟨[.setTimeMs p.time.get], by simp [EngineCall.isInitialise], rfl⟩
  · exact ⟨[.setMix p.mix.get], by simp [EngineCall.isInitialise], rfl⟩
  · exact ⟨[.setFeedback p.feedback.get], by simp [EngineCall.isInitialise], rfl⟩
  · exact ⟨[.setSpread p.spread.get], by simp [EngineCall.isInitialise], rfl⟩
  · exact ⟨[.setDispersion p.dispersion.get], by simp [EngineCall.isInitialise], rfl⟩
  · exact ⟨[.setVoiceArrangement (List.replicate p.numVoices.get.toNat 1)],
      by simp [EngineCall.isInitialise], rfl⟩
  · exact ⟨[.setRandomSeed p.seed.get], by simp [EngineCall.isInitialise], rfl⟩
  · exact ⟨[], by simp, by simp⟩

/-- The loop of `prepareToPlay` over the parameters adds engine calls other than
`effect.initialize` to the record, and nothing else. -/
theorem reportParameters_record {σ α : Type} (E : Effect σ α)
    (parameters : List AudioProcessorParameter) :
    ∀ p : Recorded σ α,
      ∃ cs : List (EngineCall α), (∀ c ∈ cs, c.isInitialise = false) ∧
        (parameters.foldl
            (fun q parameter =>
              q.parameterValueChanged E.recorded parameter.getParameterIndex parameter.getValue)
            p).record
          = p.record ++ cs.map Event.engine := by
  induction parameters with
  | nil => intro p; exact ⟨[], by simp, by simp⟩
  | cons parameter rest ih =>
    intro p
    obtain ⟨cs1, h1, e1⟩ :=
      parameterValueChanged_record E p parameter.getParameterIndex parameter.getValue
    obtain ⟨cs2, h2, e2⟩ := ih
      (p.parameterValueChanged E.recorded parameter.getParameterIndex parameter.getValue)
    refine ⟨cs1 ++ cs2, ?_, ?_⟩
    · intro c hc
      rcases List.mem_append.mp hc with h | h
      · exact h1 c h
      · exact h2 c h
    · rw [List.foldl_cons, e2, e1]; simp

/-- The method `prepareToPlay` adds to the record `effect.initialize` with its own
sample rate and the seed 1234, then engine calls other than `effect.initialize`. -/
theorem prepareToPlay_record {σ α : Type} [Zero α] (E : Effect σ α) (p : Recorded σ α)
    (sampleRate : ℚ) (samplesPerBlock : Nat) :
    ∃ cs : List (EngineCall α), (∀ c ∈ cs, c.isInitialise = false) ∧
      (p.prepareToPlay E.recorded sampleRate samplesPerBlock).record
        = p.record ++ Event.engine (.initialise sampleRate 1234) :: cs.map Event.engine := by
  unfold DisperseAudioProcessor.prepareToPlay
  obtain ⟨cs, h, e⟩ := reportParameters_record E
    (DisperseAudioProcessor.getParameters
      ({ p with sampleRate := sampleRate, inputBuffer := AudioBuffer.allocate 2 samplesPerBlock,
                effect := E.recorded.initialise p.effect sampleRate 1234 } : Recorded σ α))
    ({ p with sampleRate := sampleRate, inputBuffer := AudioBuffer.allocate 2 samplesPerBlock,
              effect := E.recorded.initialise p.effect sampleRate 1234 } : Recorded σ α)
  refine ⟨cs, h, ?_⟩
  simp only [] at e ⊢
  rw [e]
  simp [DisperseAudioProcessor.record, Effect.recorded]

/-- The sample loop of `processBlock` adds engine calls other than `effect.initialize`
to the record, and nothing else. -/
theorem processSamples_record {σ α : Type} (E : Effect σ α) (count : Nat) :
    ∀ (i : Nat) (s : σ × List (Event α)) (b : AudioBuffer α) (r : (σ × List (Event α)) × AudioBuffer α),
      processSamples E.recorded count i s b = some r →
      ∃ cs : List (EngineCall α), (∀ c ∈ cs, c.isInitialise = false) ∧
        r.1.2 = s.2 ++ cs.map Event.engine := by
  induction count with
  | zero =>
    intro i s b r h
    simp only [processSamples, Option.some.injEq] at h
    subst h
    exact ⟨[], by simp, by simp⟩
  | succ count ih =>
    intro i s b r h
    simp only [processSamples] at h
    split at h
    · exact absurd h (by simp)
    · split at h
      · exact absurd h (by simp)
      · rename_i _ l _ _ r0 _
        split at h
        · exact absurd h (by simp)
        · split at h
          · exact absurd h (by simp)
          · obtain ⟨cs, hcs, e⟩ := ih _ _ _ _ h
            refine ⟨EngineCall.process { L := l, R := r0 } :: cs, ?_, ?_⟩
            · intro c hc
              rcases List.mem_cons.mp hc with h1 | h1
              · rw [h1]; rfl
              · exact hcs c h1
            · rw [e, recorded_process]; simp

/-- The method `processBlock` adds engine calls other than `effect.initialize` to the
record, and nothing else. -/
theorem processBlock_record {σ α : Type} [Zero α] (E : Effect σ α) (p : Recorded σ α)
    (buffer : AudioBuffer α) (r : Recorded σ α × AudioBuffer α)
    (h : p.processBlock E.recorded buffer = some r) :
    ∃ cs : List (EngineCall α), (∀ c ∈ cs, c.isInitialise = false) ∧
      r.1.record = p.record ++ cs.map Event.engine := by
  unfold DisperseAudioProcessor.processBlock at h
  simp only [] at h
  split at h
  · exact absurd h (by simp)
  · split at h
    · exact absurd h (by simp)
    · rename_i hs
      obtain ⟨cs, hcs, e⟩ := processSamples_record E _ _ _ _ _ hs
      simp only [Option.some.injEq] at h
      subst h
      exact ⟨cs, hcs, e⟩

/-- A run over a sequence of host calls followed by one more call. -/
theorem hostRun_concat {σ α : Type} [Zero α] (cfg : Config) (E : Effect σ α)
    (calls : List (HostCall α)) (call : HostCall α) :
    ∀ p : Recorded σ α,
      hostRun cfg E p (calls ++ [call])
        = (hostRun cfg E p calls).bind (fun q => hostStep cfg E q call) := by
  induction calls with
  | nil =>
    intro p
    simp only [List.nil_append, hostRun, Option.some_bind]
    cases hostStep cfg E p call <;> rfl
  | cons c cs ih =>
    intro p
    simp only [List.cons_append, hostRun]
    cases hostStep cfg E p c with
    | none => rfl
    | some p1 => exact ih p1

/-- A host call `prepareToPlay` adds its mark, `effect.initialize` with its sample rate,
then engine calls other than `effect.initialize`. -/
theorem hostStep_record_prepare {σ α : Type} [Zero α] (cfg : Config) (E : Effect σ α)
    (p q : Recorded σ α) (sampleRate : ℚ) (samplesPerBlock : Nat)
    (h : hostStep cfg E p (.prepareToPlay sampleRate samplesPerBlock) = some q) :
    ∃ cs : List (EngineCall α), (∀ c ∈ cs, c.isInitialise = false) ∧
      q.record = p.record ++ Event.host (.prepareToPlay sampleRate samplesPerBlock)
        :: Event.engine (.initialise sampleRate 1234) :: cs.map Event.engine := by
  simp only [hostStep, Option.some.injEq] at h
  subst h
  obtain ⟨cs, hcs, e⟩ := prepareToPlay_record E
    ({ p with effect := (p.effect.1,
        p.effect.2 ++ [Event.host (.prepareToPlay sampleRate samplesPerBlock)]) } : Recorded σ α)
    sampleRate samplesPerBlock
  refine ⟨cs, hcs, ?_⟩
  rw [e]
  simp [DisperseAudioProcessor.record]

/-- A host call other than `prepareToPlay` adds its mark, then engine calls other than
`effect.initialize`. -/
theorem hostStep_record_other {σ α : Type} [Zero α] (cfg : Config) (E : Effect σ α)
    (p q : Recorded σ α) (call : HostCall α) (hcall : ∀ r n, call ≠ .prepareToPlay r n)
    (h : hostStep cfg E p call = some q) :
    ∃ cs : List (EngineCall α), (∀ c ∈ cs, c.isInitialise = false) ∧
      q.record = p.record ++ Event.host call :: cs.map Event.engine := by
  cases call with
  | prepareToPlay r n => exact absurd rfl (hcall r n)
  | setBusesLayout layouts =>
    simp only [hostStep, Option.some.injEq] at h
    subst h
    refine ⟨[], by simp, ?_⟩
    unfold DisperseAudioProcessor.setBusesLayout
    split_ifs <;> simp [DisperseAudioProcessor.record]
  | releaseResources =>
    simp only [hostStep, Option.some.injEq] at h
    subst h
    exact ⟨[], by simp, by simp [DisperseAudioProcessor.record,
      DisperseAudioProcessor.releaseResources]⟩
  | processBlock buffer =>
    simp only [hostStep, Option.map_eq_some'] at h
    obtain ⟨r, hr, rfl⟩ := h
    obtain ⟨cs, hcs, e⟩ := processBlock_record E _ buffer r hr
    refine ⟨cs, hcs, ?_⟩
    rw [e]
    simp [DisperseAudioProcessor.record]
  | getStateInformation destData =>
    simp only [hostStep, Option.some.injEq] at h
    subst h
    exact ⟨[], by simp, by simp [DisperseAudioProcessor.record]⟩
  | setStateInformation data sizeInBytes =>
    simp only [hostStep, Option.some.injEq] at h
    subst h
    exact ⟨[], by simp, by simp [DisperseAudioProcessor.record,
      DisperseAudioProcessor.setStateInformation]⟩
  | storeValues mix time feedback spread dispersion numVoices seed =>
    simp only [hostStep, Option.some.injEq] at h
    subst h
    exact ⟨[], by simp, by simp [DisperseAudioProcessor.record]⟩
  | parameterValueChanged parameterIndex val =>
    simp only [hostStep, Option.some.injEq] at h
    subst h
    obtain ⟨cs, hcs, e⟩ := parameterValueChanged_record E
      ({ p with effect := (p.effect.1,
          p.effect.2 ++ [Event.host (.parameterValueChanged parameterIndex val)]) } :
        Recorded σ α) parameterIndex val
    refine ⟨cs, hcs, ?_⟩
    rw [e]
    simp [DisperseAudioProcessor.record]
  | parameterGestureChanged parameterIndex gestureIsStarting =>
    simp only [hostStep, Option.some.injEq] at h
    subst h
    exact ⟨[], by simp, by simp [DisperseAudioProcessor.record,
      DisperseAudioProcessor.parameterGestureChanged]⟩

/-- One host call extends an ordered record to an ordered record, provided the rates
agree before it or the call is `prepareToPlay`; afterwards the rates agree. -/
theorem hostStep_ordered {σ α : Type} [Zero α] (cfg : Config) (E : Effect σ α)
    (p q : Recorded σ α) (call : HostCall α) (base evs : List (Event α))
    (h : hostStep cfg E p call = some q) (hrec : p.record = base ++ evs)
    (hord : EngineOrdered evs)
    (hagree : RatesAgree evs ∨ ∃ r n, call = .prepareToPlay r n) :
    ∃ evs1, q.record = base ++ evs1 ∧ EngineOrdered evs1 ∧ RatesAgree evs1 := by
  by_cases hprep : ∃ r n, call = .prepareToPlay r n
  · obtain ⟨r, n, rfl⟩ := hprep
    obtain ⟨cs, hcs, e⟩ := hostStep_record_prepare cfg E p q r n h
    have := engineOrdered_prepare_block evs r n 1234 cs hcs hord
    exact ⟨_, by rw [e, hrec, List.append_assoc], this.1, this.2⟩
  · have hne : ∀ r n, call ≠ .prepareToPlay r n := fun r n heq => hprep ⟨r, n, heq⟩
    have hag : RatesAgree evs := hagree.resolve_right hprep
    obtain ⟨cs, hcs, e⟩ := hostStep_record_other cfg E p q call hne h
    have := engineOrdered_block evs call cs hne hcs hord hag
    exact ⟨_, by rw [e, hrec, List.append_assoc], this.1, this.2⟩

/-- Every run of host calls that begins with `prepareToPlay` extends the record by an
ordered list of events. -/
theorem hostRun_ordered {σ α : Type} [Zero α] (cfg : Config) (E : Effect σ α)
    (p : Recorded σ α) (sampleRate : ℚ) (samplesPerBlock : Nat) (calls : List (HostCall α)) :
    ∀ q : Recorded σ α,
      hostRun cfg E p (.prepareToPlay sampleRate samplesPerBlock :: calls) = some q →
      ∃ evs, q.record = p.record ++ evs ∧ EngineOrdered evs ∧ RatesAgree evs := by
  induction calls using List.reverseRecOn with
  | nil =>
    intro q h
    simp only [hostRun] at h
    split at h
    · rename_i p1 h1
      simp only [Option.some.injEq] at h
      subst h
      exact hostStep_ordered cfg E p p1 _ p.record [] h1 (by simp) engineOrdered_nil
        (Or.inr ⟨_, _, rfl⟩)
    · exact absurd h (by simp)
  | append_singleton calls call ih =>
    intro q h
    rw [← List.cons_append, hostRun_concat] at h
    obtain ⟨q0, h0, hstep⟩ := Option.bind_eq_some.mp h
    obtain ⟨evs, e, hord, hag⟩ := ih q0 h0
    exact hostStep_ordered cfg E q0 q call p.record evs hstep e hord (Or.inl hag)

/-! ## The claims -/

/-- C1: on a stereo buffer of `n` samples (no output channel without an input),
`processBlock` calls `effect.process` exactly `n` times, for the sample indices
`0 .. n-1` in increasing order, each time with the pair (channel 0 at `i`, channel 1 at
`i`) as it was before the call, and afterwards the two channels hold the `L` and the `R`
of the returned pairs: the engine state and the outputs are the left fold of
`effect.process` over the sample pairs, and the record grows by exactly those `process`
calls. -/
theorem processBlock_is_fold_of_process {σ α : Type} [Zero α] (E : Effect σ α)
    (p : Recorded σ α) (left right : List α)
    (hlen : left.length = right.length)
    (hch : p.totalNumOutputChannels ≤ p.totalNumInputChannels) :
    p.processBlock E.recorded ⟨left.length, [left, right]⟩
      = some ({ p with
                inputBuffer := ⟨left.length, [left, right]⟩
                effect := ((foldProcess E p.effect.1 (samplePairs left right)).2,
                  p.effect.2 ++ (samplePairs left right).map
                    (fun input => Event.engine (.process input))) },
              ⟨left.length,
                [(foldProcess E p.effect.1 (samplePairs left right)).1.map stereofloat.L,
                 (foldProcess E p.effect.1 (samplePairs left right)).1.map stereofloat.R]⟩) := by
  rw [processBlock_stereo E.recorded p left right hlen hch]
  have h := foldProcess_recorded E (samplePairs left right) p.effect.1 p.effect.2
  rw [show (p.effect.1, p.effect.2) = p.effect from rfl] at h
  rw [h]

/-- C1, on a buffer of two samples: left channel 1, 2 and right channel 3, 4, with the
sample engine. -/
theorem processBlock_is_fold_of_process_witness :
    ([1, 2] : List Int).length = ([3, 4] : List Int).length
    ∧ sampleProcessor.totalNumOutputChannels ≤ sampleProcessor.totalNumInputChannels
    ∧ sampleProcessor.processBlock sampleEffect.recorded ⟨2, [[1, 2], [3, 4]]⟩
      = some ({ sampleProcessor with
                inputBuffer := ⟨2, [[1, 2], [3, 4]]⟩
                effect := (2, [Event.engine (.process ⟨1, 3⟩), Event.engine (.process ⟨2, 4⟩)]) },
              ⟨2, [[3, 5], [1, 3]]⟩) :=
  ⟨rfl, by decide,
    processBlock_is_fold_of_process sampleEffect sampleProcessor [1, 2] [3, 4] rfl (by decide)⟩

/-- C2: for each of the parameters time, mix, feedback, spread and dispersion, the
callback `parameterValueChanged` with that parameter's index calls exactly the matching
engine setter, once, with the parameter's current value, and calls nothing else on the
engine. -/
theorem parameterValueChanged_calls_matching_setter {σ α : Type} (E : Effect σ α)
    (p : Recorded σ α) (val : ℚ) (h : p.Registered) :
    p.parameterValueChanged E.recorded p.time.getParameterIndex val
        = { p with effect := (E.setTimeMs p.effect.1 p.time.get,
              p.effect.2 ++ [Event.engine (.setTimeMs p.time.get)]) }
    ∧ p.parameterValueChanged E.recorded p.mix.getParameterIndex val
        = { p with effect := (E.setMix p.effect.1 p.mix.get,
              p.effect.2 ++ [Event.engine (.setMix p.mix.get)]) }
    ∧ p.parameterValueChanged E.recorded p.feedback.getParameterIndex val
        = { p with effect := (E.setFeedback p.effect.1 p.feedback.get,
              p.effect.2 ++ [Event.engine (.setFeedback p.feedback.get)]) }
    ∧ p.parameterValueChanged E.recorded p.spread.getParameterIndex val
        = { p with effect := (E.setSpread p.effect.1 p.spread.get,
              p.effect.2 ++ [Event.engine (.setSpread p.spread.get)]) }
    ∧ p.parameterValueChanged E.recorded p.dispersion.getParameterIndex val
        = { p with effect := (E.setDispersion p.effect.1 p.dispersion.get,
              p.effect.2 ++ [Event.engine (.setDispersion p.dispersion.get)]) } := by
  obtain ⟨h0, h1, h2, h3, h4, -, -⟩ := h
  refine ⟨?_, ?_, ?_, ?_, ?_⟩ <;>
    simp [DisperseAudioProcessor.parameterValueChanged, AudioParameterFloat.getParameterIndex,
      h0, h1, h2, h3, h4, Effect.recorded]

/-- C2, on the freshly constructed sample processor: each of the five indices reaches
its own setter with the default value. -/
theorem parameterValueChanged_calls_matching_setter_witness :
    sampleProcessor.Registered
    ∧ (sampleProcessor.parameterValueChanged sampleEffect.recorded 1 0).effect
        = (1, [Event.engine (.setTimeMs 600)])
    ∧ (sampleProcessor.parameterValueChanged sampleEffect.recorded 0 0).effect
        = (1, [Event.engine (.setMix (3 / 10))])
    ∧ (sampleProcessor.parameterValueChanged sampleEffect.recorded 2 0).effect
        = (1, [Event.engine (.setFeedback (1 / 2))])
    ∧ (sampleProcessor.parameterValueChanged sampleEffect.recorded 3 0).effect
        = (1, [Event.engine (.setSpread (1 / 5))])
    ∧ (sampleProcessor.parameterValueChanged sampleEffect.recorded 4 0).effect
        = (1, [Event.engine (.setDispersion (1 / 5))]) := by
  have hreg : sampleProcessor.Registered := by
    simp [DisperseAudioProcessor.Registered, sampleProcessor, DisperseAudioProcessor.ctor]
  have h := parameterValueChanged_calls_matching_setter sampleEffect sampleProcessor 0 hreg
  refine ⟨hreg, ?_, ?_, ?_, ?_, ?_⟩
  · exact congrArg DisperseAudioProcessor.effect h.1
  · exact congrArg DisperseAudioProcessor.effect h.2.1
  · exact congrArg DisperseAudioProcessor.effect h.2.2.1
  · exact congrArg DisperseAudioProcessor.effect h.2.2.2.1
  · exact congrArg DisperseAudioProcessor.effect h.2.2.2.2

/-- C3, evaluated: on a freshly constructed processor whose seed parameter holds 42,
`parameterValueChanged` with the seed parameter's index (6) calls
`effect.setVoiceArrangement` with four ones and never `effect.setRandomSeed`: the test
before it, `this->numVoices->getParameterIndex()`, is the non-zero index 5. -/
theorem parameterValueChanged_seed_index_skips_setRandomSeed {σ α : Type} (E : Effect σ α)
    (cfg : Config) (e0 : σ) (val : ℚ) :
    (({ (DisperseAudioProcessor.ctor cfg (e0, []) : Recorded σ α) with
          seed := ⟨6, "Random Seed", 1, 100000, 1234, 42⟩ } : Recorded σ α).parameterValueChanged
        E.recorded 6 val).effect
      = (E.setVoiceArrangement e0 [1, 1, 1, 1],
         [Event.engine (.setVoiceArrangement [1, 1, 1, 1])]) := by
  simp [DisperseAudioProcessor.parameterValueChanged, DisperseAudioProcessor.ctor,
    AudioParameterFloat.getParameterIndex, AudioParameterInt.getParameterIndex,
    AudioParameterInt.get, Effect.recorded, List.replicate]

/-- C4, evaluated: on a freshly constructed processor whose number-of-voices parameter
holds 8, `parameterValueChanged` with an index that is not the number-of-voices
parameter's (the seed's index 6, and the unused index 7) still calls
`effect.setVoiceArrangement`, with eight ones. -/
theorem parameterValueChanged_other_index_calls_setVoiceArrangement {σ α : Type}
    (E : Effect σ α) (cfg : Config) (e0 : σ) (val : ℚ) :
    (DisperseAudioProcessor.ctor cfg (e0, []) : Recorded σ α).numVoices.getParameterIndex = 5
    ∧ (({ (DisperseAudioProcessor.ctor cfg (e0, []) : Recorded σ α) with
          numVoices := ⟨5, "Number of Delay Voices", 0, 8, 4, 8⟩ } :
          Recorded σ α).parameterValueChanged E.recorded 6 val).record
        = [Event.engine (.setVoiceArrangement [1, 1, 1, 1, 1, 1, 1, 1])]
    ∧ (({ (DisperseAudioProcessor.ctor cfg (e0, []) : Recorded σ α) with
          numVoices := ⟨5, "Number of Delay Voices", 0, 8, 4, 8⟩ } :
          Recorded σ α).parameterValueChanged E.recorded 7 val).record
        = [Event.engine (.setVoiceArrangement [1, 1, 1, 1, 1, 1, 1, 1])] := by
  simp [DisperseAudioProcessor.parameterValueChanged, DisperseAudioProcessor.ctor,
    DisperseAudioProcessor.record,
    AudioParameterFloat.getParameterIndex, AudioParameterInt.getParameterIndex,
    AudioParameterInt.get, Effect.recorded, List.replicate]

/-- C5: every value `t` inside the range the constructor registers for the delay-time
parameter, `[50, MAX_DELAY_TIME - MAX_TIME_SPREAD]`, satisfies
`t + MAX_TIME_SPREAD ≤ MAX_DELAY_TIME`, whatever the two constants are; and when the
parameter holds `t`, `t` is what `parameterValueChanged` passes to `effect.setTimeMs`. -/
theorem time_range_fits_max_delay {σ α : Type} (E : Effect σ α) (cfg : Config) (e0 : σ)
    (val t : ℚ)
    (hrange : (DisperseAudioProcessor.ctor cfg (e0, []) : Recorded σ α).time.minValue ≤ t
      ∧ t ≤ (DisperseAudioProcessor.ctor cfg (e0, []) : Recorded σ α).time.maxValue) :
    t + cfg.MAX_TIME_SPREAD ≤ cfg.MAX_DELAY_TIME
    ∧ (({ (DisperseAudioProcessor.ctor cfg (e0, []) : Recorded σ α) with
          time := { (DisperseAudioProcessor.ctor cfg (e0, []) : Recorded σ α).time with
                    value := t } } : Recorded σ α).parameterValueChanged
          E.recorded 1 val).record
        = [Event.engine (.setTimeMs t)] := by
  have hmax := hrange.2
  simp only [DisperseAudioProcessor.ctor] at hmax
  refine ⟨by linarith, ?_⟩
  simp [DisperseAudioProcessor.parameterValueChanged, DisperseAudioProcessor.ctor,
    DisperseAudioProcessor.record, AudioParameterFloat.getParameterIndex,
    AudioParameterFloat.get, Effect.recorded]

/-- C5, for the sample configuration (range `[50, 2500]`) at `t = 2500`. -/
theorem time_range_fits_max_delay_witness :
    (50 : ℚ) ≤ 2500 ∧ (2500 : ℚ) ≤ 3000 - 500
    ∧ (2500 : ℚ) + sampleConfig.MAX_TIME_SPREAD ≤ sampleConfig.MAX_DELAY_TIME :=
  ⟨by norm_num, by norm_num,
    (time_range_fits_max_delay sampleEffect sampleConfig 0 0 2500
      (by simp [DisperseAudioProcessor.ctor, sampleConfig]; norm_num)).1⟩

/-- C7, evaluated: `getStateInformation` on a processor with the default values writes
nothing into an empty memory block, and `setStateInformation` with that block on a
processor whose mix holds 0.5 leaves the mix at 0.5, not at the saved 0.30. -/
theorem state_round_trip_restores_nothing {σ α : Type} (cfg : Config) (e0 : σ) :
    (DisperseAudioProcessor.ctor cfg e0 : DisperseAudioProcessor σ α).getStateInformation [] = []
    ∧ (DisperseAudioProcessor.ctor cfg e0 : DisperseAudioProcessor σ α).mix.get = 3 / 10
    ∧ (({ (DisperseAudioProcessor.ctor cfg e0 : DisperseAudioProcessor σ α) with
            mix := ⟨0, "Mix", 0, 1, 3 / 10, 1 / 2⟩ } :
          DisperseAudioProcessor σ α).setStateInformation
        ((DisperseAudioProcessor.ctor cfg e0 : DisperseAudioProcessor σ α).getStateInformation [])
        0).mix.get = 1 / 2
    ∧ (1 / 2 : ℚ) ≠ 3 / 10 := by
  refine ⟨rfl, rfl, rfl, by norm_num⟩

/-- C8: in every sequence of host calls that begins with `prepareToPlay` (and reaches
its end without an out-of-bounds buffer access), the events it adds to the record are
ordered: every `effect.initialize (r, _)` is made while a `prepareToPlay` with sample
rate `r` is in progress, so never by `processBlock`; and before every other engine call
(every `effect.process` and every setter, those made by `prepareToPlay` included) the
most recent `effect.initialize` carries the sample rate of the most recent
`prepareToPlay`. -/
theorem initialise_precedes_every_engine_call {σ α : Type} [Zero α] (cfg : Config)
    (E : Effect σ α) (p q : Recorded σ α) (sampleRate : ℚ) (samplesPerBlock : Nat)
    (calls : List (HostCall α))
    (hrun : hostRun cfg E p (.prepareToPlay sampleRate samplesPerBlock :: calls) = some q) :
    ∃ evs : List (Event α), q.record = p.record ++ evs ∧
      ∀ (before : List (Event α)) (call : EngineCall α) (after : List (Event α)),
        evs = before ++ Event.engine call :: after →
          (∀ r s, call = .initialise r s →
              ∃ n, lastHostCall before = some (HostCall.prepareToPlay r n)) ∧
          (call.isInitialise = false →
              ∃ r, lastPrepareRate before = some r ∧ lastInitialiseRate before = some r) := by
  obtain ⟨evs, e, hord, -⟩ := hostRun_ordered cfg E p sampleRate samplesPerBlock calls q hrun
  exact ⟨evs, e, hord⟩

/-- C8, on the sample processor: `prepareToPlay (44100, 2)` followed by `processBlock`
on a stereo buffer of two samples runs to its end, leaves the record shown, and that
record is ordered. -/
theorem initialise_precedes_every_engine_call_witness :
    ∃ q : Recorded Nat Int,
      hostRun sampleConfig sampleEffect sampleProcessor
          [.prepareToPlay 44100 2, .processBlock ⟨2, [[1, 2], [3, 4]]⟩] = some q
      ∧ q.record
          = [Event.host (.prepareToPlay 44100 2),
             Event.engine (.initialise 44100 1234),
             Event.engine (.setMix (3 / 10)),
             Event.engine (.setTimeMs 600),
             Event.engine (.setFeedback (1 / 2)),
             Event.engine (.setSpread (1 / 5)),
             Event.engine (.setDispersion (1 / 5)),
             Event.engine (.setVoiceArrangement [1, 1, 1, 1]),
             Event.engine (.setVoiceArrangement [1, 1, 1, 1]),
             Event.host (.processBlock ⟨2, [[1, 2], [3, 4]]⟩),
             Event.engine (.process ⟨1, 3⟩),
             Event.engine (.process ⟨2, 4⟩)]
      ∧ ∃ evs : List (Event Int), q.record = sampleProcessor.record ++ evs ∧
        ∀ (before : List (Event Int)) (call : EngineCall Int) (after : List (Event Int)),
          evs = before ++ Event.engine call :: after →
            (∀ r s, call = .initialise r s →
                ∃ n, lastHostCall before = some (HostCall.prepareToPlay r n)) ∧
            (call.isInitialise = false →
                ∃ r, lastPrepareRate before = some r ∧ lastInitialiseRate before = some r) :=
  ⟨_, rfl, rfl,
    initialise_precedes_every_engine_call sampleConfig sampleEffect sampleProcessor _ 44100 2
      [.processBlock ⟨2, [[1, 2], [3, 4]]⟩] rfl⟩

/-- C9, evaluated: on a freshly constructed processor whose seed parameter holds 42,
`prepareToPlay (44100, 512)` makes exactly these engine calls: `effect.initialize` with
the seed 1234, the five float setters with the current values, and
`effect.setVoiceArrangement` twice (for the indices 5 and 6).  `effect.setRandomSeed` is
not called, so the engine keeps the seed 1234, not 42. -/
theorem prepareToPlay_never_passes_seed {σ α : Type} [Zero α] (E : Effect σ α)
    (cfg : Config) (e0 : σ) :
    (({ (DisperseAudioProcessor.ctor cfg (e0, []) : Recorded σ α) with
          seed := ⟨6, "Random Seed", 1, 100000, 1234, 42⟩ } : Recorded σ α).prepareToPlay
        E.recorded 44100 512).record
      = [Event.engine (.initialise 44100 1234),
         Event.engine (.setMix (3 / 10)),
         Event.engine (.setTimeMs 600),
         Event.engine (.setFeedback (1 / 2)),
         Event.engine (.setSpread (1 / 5)),
         Event.engine (.setDispersion (1 / 5)),
         Event.engine (.setVoiceArrangement [1, 1, 1, 1]),
         Event.engine (.setVoiceArrangement [1, 1, 1, 1])] := by
  simp [DisperseAudioProcessor.prepareToPlay, DisperseAudioProcessor.getParameters,
    DisperseAudioProcessor.parameterValueChanged, DisperseAudioProcessor.ctor,
    DisperseAudioProcessor.record, AudioProcessorParameter.getParameterIndex,
    AudioParameterFloat.getParameterIndex, AudioParameterInt.getParameterIndex,
    AudioParameterFloat.get, AudioParameterInt.get, Effect.recorded, List.replicate]

/-- C10, evaluated: the layout with a mono main input and a mono main output is
accepted by `isBusesLayoutSupported`; on a buffer of that layout (one channel) with one
sample, `processBlock` reads channel 0 and then channel 1, which the buffer does not
have. -/
theorem processBlock_mono_reads_missing_channel {σ α : Type} [Zero α] (E : Effect σ α)
    (e0 : σ) (x : α) :
    isBusesLayoutSupported sampleConfig ⟨.mono, .mono⟩ = true
    ∧ (⟨1, [[x]]⟩ : AudioBuffer α).getNumChannels = AudioChannelSet.mono.size
    ∧ (⟨1, [[x]]⟩ : AudioBuffer α).getSample 0 0 = some x
    ∧ (⟨1, [[x]]⟩ : AudioBuffer α).getSample 1 0 = none
    ∧ (((DisperseAudioProcessor.ctor sampleConfig e0 :
          DisperseAudioProcessor σ α).setBusesLayout sampleConfig ⟨.mono, .mono⟩).processBlock
        E ⟨1, [[x]]⟩) = none := by
  refine ⟨by decide, rfl, rfl, rfl, rfl⟩

end Disperse
